import Mathlib

/-!
Verification of the reference-audio segmentation and embedding-cache pipeline
of the TTS microservice (`services/tts_microservice/openvoice/se_extractor.py`
and `services/tts_microservice/main.py`).

The development shallowly embeds the pipeline:
* `hash_numpy_array` (content hashing: SHA-256 of the decoded sample bytes,
  base64, first 16 characters, `/` replaced by `_^`);
* `split_audio_vad` (VAD-based segmentation arithmetic, over `ℚ`);
* `split_audio_whisper` (transcription-based segmentation and filtering);
* `get_se` / `synthesize_speech` (orchestration, modelled as explicit
  state passing over an abstract file system and an environment recording
  the outcomes of the external decode/VAD/model operations);
* an interleaving model for two concurrent callers of `get_se`.
-/

/-! ## Content hashing (`hash_numpy_array`, se_extractor.py lines 174-189)

The source decodes the audio with `librosa.load(..., sr=None, mono=True)`,
takes `array.tobytes()`, hashes with SHA-256, base64-encodes the digest,
keeps the first 16 characters and replaces `/` by `_^`.  We embed the byte
level: the input is the list of decoded sample bytes. -/

/-- 2^32, the modulus of 32-bit words. -/
def M32 : Nat := 4294967296

/-- Addition modulo 2^32. -/
def add32 (a b : Nat) : Nat := (a + b) % M32

/-- Right rotation of a 32-bit word. -/
def rotr32 (n x : Nat) : Nat := ((x >>> n) ||| (x <<< (32 - n))) % M32

/-- Bitwise complement of a 32-bit word. -/
def not32 (x : Nat) : Nat := (M32 - 1) ^^^ x

/-- SHA-256 big sigma 0. -/
def bigSig0 (x : Nat) : Nat := (rotr32 2 x) ^^^ (rotr32 13 x) ^^^ (rotr32 22 x)

/-- SHA-256 big sigma 1. -/
def bigSig1 (x : Nat) : Nat := (rotr32 6 x) ^^^ (rotr32 11 x) ^^^ (rotr32 25 x)

/-- SHA-256 small sigma 0. -/
def smallSig0 (x : Nat) : Nat := (rotr32 7 x) ^^^ (rotr32 18 x) ^^^ (x >>> 3)

/-- SHA-256 small sigma 1. -/
def smallSig1 (x : Nat) : Nat := (rotr32 17 x) ^^^ (rotr32 19 x) ^^^ (x >>> 10)

/-- SHA-256 choice function. -/
def chW (x y z : Nat) : Nat := (x &&& y) ^^^ ((not32 x) &&& z)

/-- SHA-256 majority function. -/
def majW (x y z : Nat) : Nat := (x &&& y) ^^^ (x &&& z) ^^^ (y &&& z)

/-- The eight 32-bit words of SHA-256 internal state. -/
structure Hash8 where
  a : Nat
  b : Nat
  c : Nat
  d : Nat
  e : Nat
  f : Nat
  g : Nat
  h : Nat
deriving DecidableEq, Repr

/-- The 64 SHA-256 round constants, written in decimal. -/
def K256 : List Nat :=
  [1116352408, 1899447441, 3049323471, 3921009573,
   961987163, 1508970993, 2453635748, 2870763221,
   3624381080, 310598401, 607225278, 1426881987,
   1925078388, 2162078206, 2614888103, 3248222580,
   3835390401, 4022224774, 264347078, 604807628,
   770255983, 1249150122, 1555081692, 1996064986,
   2554220882, 2821834349, 2952996808, 3210313671,
   3336571891, 3584528711, 113926993, 338241895,
   666307205, 773529912, 1294757372, 1396182291,
   1695183700, 1986661051, 2177026350, 2456956037,
   2730485921, 2820302411, 3259730800, 3345764771,
   3516065817, 3600352804, 4094571909, 275423344,
   430227734, 506948616, 659060556, 883997877,
   958139571, 1322822218, 1537002063, 1747873779,
   1955562222, 2024104815, 2227730452, 2361852424,
   2428436474, 2756734187, 3204031479, 3329325298]

/-- The SHA-256 initial state, written in decimal. -/
def H0 : Hash8 :=
  ⟨1779033703, 3144134277, 1013904242, 2773480762,
   1359893119, 2600822924, 528734635, 1541459225⟩

/-- The eight big-endian bytes of a 64-bit length field. -/
def beBytes8 (n : Nat) : List Nat :=
  [(n >>> 56) % 256, (n >>> 48) % 256, (n >>> 40) % 256, (n >>> 32) % 256,
   (n >>> 24) % 256, (n >>> 16) % 256, (n >>> 8) % 256, n % 256]

/-- SHA-256 padding: append 0x80, zeros to 56 mod 64, then the bit length. -/
def padMessage (msg : List Nat) : List Nat :=
  msg ++ 0x80 :: List.replicate ((119 - msg.length % 64) % 64) 0 ++ beBytes8 (msg.length * 8)

/-- Split a byte list into 64-byte blocks (fuelled to keep the recursion structural). -/
def toBlocksAux : Nat → List Nat → List (List Nat)
  | 0, _ => []
  | _, [] => []
  | fuel + 1, l => l.take 64 :: toBlocksAux fuel (l.drop 64)

/-- Split a (padded) byte list into 64-byte blocks. -/
def toBlocks (l : List Nat) : List (List Nat) := toBlocksAux l.length l

/-- Big-endian 32-bit words from bytes. -/
def wordsOfBytes : List Nat → List Nat
  | b1 :: b2 :: b3 :: b4 :: rest =>
      ((b1 <<< 24) ||| (b2 <<< 16) ||| (b3 <<< 8) ||| b4) :: wordsOfBytes rest
  | _ => []

/-- Extend the 16-word message schedule by the given number of words. -/
def extendW : List Nat → Nat → List Nat
  | w, 0 => w
  | w, n + 1 =>
      let m := w.length
      let t := add32 (add32 (smallSig1 (w.getD (m - 2) 0)) (w.getD (m - 7) 0))
                     (add32 (smallSig0 (w.getD (m - 15) 0)) (w.getD (m - 16) 0))
      extendW (w ++ [t]) n

/-- One SHA-256 compression round. -/
def compressRound (s : Hash8) (kw : Nat × Nat) : Hash8 :=
  let t1 := add32 s.h (add32 (bigSig1 s.e) (add32 (chW s.e s.f s.g) (add32 kw.1 kw.2)))
  let t2 := add32 (bigSig0 s.a) (majW s.a s.b s.c)
  ⟨add32 t1 t2, s.a, s.b, s.c, add32 s.d t1, s.e, s.f, s.g⟩

/-- Process one 64-byte block. -/
def processBlock (hv : Hash8) (block : List Nat) : Hash8 :=
  let w := extendW (wordsOfBytes block) 48
  let st := (K256.zip w).foldl compressRound hv
  ⟨add32 hv.a st.a, add32 hv.b st.b, add32 hv.c st.c, add32 hv.d st.d,
   add32 hv.e st.e, add32 hv.f st.f, add32 hv.g st.g, add32 hv.h st.h⟩

/-- The four big-endian bytes of a 32-bit word. -/
def word4 (x : Nat) : List Nat := [(x >>> 24) % 256, (x >>> 16) % 256, (x >>> 8) % 256, x % 256]

/-- The 32 digest bytes of a final SHA-256 state. -/
def digestBytes (s : Hash8) : List Nat :=
  word4 s.a ++ word4 s.b ++ word4 s.c ++ word4 s.d ++
  word4 s.e ++ word4 s.f ++ word4 s.g ++ word4 s.h

/-- SHA-256 of a byte list (mirrors `hashlib.sha256`). -/
def sha256 (msg : List Nat) : List Nat :=
  digestBytes ((toBlocks (padMessage msg)).foldl processBlock H0)

/-- Character of the standard base64 alphabet (mirrors `base64.b64encode`). -/
def b64Char (n : Nat) : Char :=
  "ABCDEFGHIJKLMNOPQRSTUVWXYZabcdefghijklmnopqrstuvwxyz0123456789+/".toList.getD n 'A'

/-- Standard base64 encoding of a byte list, with padding. -/
def b64Groups : List Nat → List Char
  | b1 :: b2 :: b3 :: rest =>
      b64Char (b1 >>> 2) :: b64Char (((b1 % 4) <<< 4) ||| (b2 >>> 4)) ::
      b64Char (((b2 % 16) <<< 2) ||| (b3 >>> 6)) :: b64Char (b3 % 64) :: b64Groups rest
  | [b1, b2] => [b64Char (b1 >>> 2), b64Char (((b1 % 4) <<< 4) ||| (b2 >>> 4)),
                 b64Char ((b2 % 16) <<< 2), '=']
  | [b1] => [b64Char (b1 >>> 2), b64Char ((b1 % 4) <<< 4), '=', '=']
  | [] => []

/-- Base64 encoding (mirrors `base64.b64encode(...).decode('utf-8')`). -/
def b64encode (bytes : List Nat) : List Char := b64Groups bytes

/-- Python's `str.replace('/', '_^')`: every `/` becomes the two characters `_^`.
Since the pattern is a single character, the by-character recursion is exact. -/
def replaceSlash : List Char → List Char
  | [] => []
  | c :: rest => if c = '/' then '_' :: '^' :: replaceSlash rest else c :: replaceSlash rest

/-- Embedding of `hash_numpy_array` (se_extractor.py lines 174-189) at the byte
level: SHA-256 of the decoded sample bytes, base64, first 16 characters,
`/` replaced by `_^`.  The input is the `array.tobytes()` byte sequence of the
decoded mono sample array. -/
def hash_numpy_array (sampleBytes : List Nat) : String :=
  String.mk (replaceSlash ((b64encode (sha256 sampleBytes)).take 16))

/-! ## VAD-based segmentation (`split_audio_vad`, se_extractor.py lines 95-172)

The source concatenates the VAD speech spans into one track of duration
`audio_dur`, computes `num_splits = int(np.round(audio_dur / split_seconds))`,
asserts `num_splits > 0`, sets `interval = audio_dur / num_splits` and then
cuts `[start, end)` pieces with `end = min(start + interval, audio_dur)`,
forcing `end = audio_dur` on the last piece.  We embed the real-valued
arithmetic over `ℚ`. -/

/-- Embedding of `np.round` on scalars: round half to even (the IEEE-754 /
NumPy rounding used by `np.round`). -/
def np_round (x : ℚ) : ℤ :=
  let f := Int.floor x
  let r := x - f
  if r < 1 / 2 then f
  else if 1 / 2 < r then f + 1
  else if f % 2 = 0 then f else f + 1

/-- The segment-cutting loop of `split_audio_vad` (lines 151-166): the
remaining iteration count is the first argument; the last iteration forces
the end time to the full duration `T`. -/
def vadSegsAux (T interval : ℚ) : Nat → ℚ → List (ℚ × ℚ)
  | 0, _ => []
  | n + 1, s =>
      let e := if n = 0 then T else min (s + interval) T
      (s, e) :: vadSegsAux T interval n e

/-- Embedding of the splitting arithmetic of `split_audio_vad`
(se_extractor.py lines 145-167): `T` is the duration of the concatenated
speech track, `L` the target segment length (`split_seconds`, default 10).
The failing `assert num_splits > 0` is embedded as the error case. -/
def split_audio_vad (T L : ℚ) : Except String (List (ℚ × ℚ)) :=
  let numSplits := (np_round (T / L)).toNat
  if numSplits = 0 then .error "input audio is too short"
  else .ok (vadSegsAux T (T / numSplits) numSplits 0)

/-- Adjacent segments share their boundary: each segment ends exactly where
the next one starts. -/
def Contiguous : List (ℚ × ℚ) → Prop
  | [] => True
  | [_] => True
  | a :: b :: rest => a.2 = b.1 ∧ Contiguous (b :: rest)

/-! ## Orchestration (`get_se`, se_extractor.py lines 191-229, and
`synthesize_speech`, main.py lines 149-278)

`get_se` is embedded as explicit state passing: the outcomes of the external
operations (librosa decode, VAD, `extract_se`, base TTS, voice conversion)
are recorded in an environment, and the on-disk artifact store is threaded
through as state.  The embedding mirrors the source's control flow: the
source computes `se_path` (line 203) and then unconditionally runs
segmentation (line 208) and `extract_se` (line 222) — it never tests whether
a file already exists at `se_path`. -/

deriving instance DecidableEq for Except

/-- The pipeline error taxonomy: decode failure (`librosa` raise, line 186-189),
no usable speech (`assert num_splits > 0`, line 148), empty segment corpus
(`NotImplementedError`, line 217), and embedding-model failure. -/
inductive PErr where
  | decodeError (msg : String)
  | noSpeech
  | noSegments
  | modelError (msg : String)
deriving DecidableEq, Repr

/-- Outcomes of the external operations consumed by one request: the decoded
sample bytes (or decode failure), the duration of the VAD-concatenated
speech track, and the results of `extract_se`, `model.tts_to_file` and
`tone_color_converter.convert`. -/
structure Env where
  decoded : Except String (List Nat)
  speechDur : ℚ
  extractResult : Except String (List Nat)
  ttsResult : Except String Unit
  convResult : Except String Unit
deriving DecidableEq, Repr

/-- The file-system state a request can observe and modify: the persisted
embedding artifacts (path to bytes), and whether the request's intermediate
base speech file and final converted file exist. -/
structure FS where
  artifacts : List (String × List Nat)
  baseFile : Bool
  finalFile : Bool
deriving DecidableEq, Repr

/-- Store an artifact at a path, replacing any previous artifact there. -/
def fsWrite (fs : FS) (p : String) (v : List Nat) : FS :=
  { fs with artifacts := (p, v) :: fs.artifacts.filter (fun e => e.1 != p) }

/-- Result of a `get_se` run: the returned value or error, the file system
after the run, and how many segmentation and extraction runs were performed. -/
structure GetSeResult where
  result : Except PErr (List Nat × String)
  fs : FS
  segmentationRuns : Nat
  extractionRuns : Nat
deriving DecidableEq, Repr

/-- The deterministic artifact path `{target_dir}/{audio_name}/se.pth`
(line 203). -/
def sePath (targetDir audioName : String) : String :=
  targetDir ++ "/" ++ audioName ++ "/se.pth"

/-- The working-directory name `{stem}_{version}_{hash}` (line 202), where
`stem` is the reference file's basename without its extension. -/
def audioNameOf (stem version : String) (samples : List Nat) : String :=
  stem ++ "_" ++ version ++ "_" ++ hash_numpy_array samples

/-- Embedding of `get_se` (se_extractor.py lines 191-229) with `vad=True`:
hash the decoded audio (line 202), derive the deterministic path (line 203),
run `split_audio_vad` (line 208), check the globbed segment files
(lines 213-217) and run `extract_se` (line 222), which persists the
artifact at `se_path`.  There is no cache-hit branch: the input file system
is never read, and every error re-raises unmodified (lines 225-229). -/
def get_se (env : Env) (stem version targetDir : String) (L : ℚ) (fs : FS) : GetSeResult :=
  match env.decoded with
  | .error m => ⟨.error (.decodeError m), fs, 0, 0⟩
  | .ok samples =>
      let name := audioNameOf stem version samples
      let path := sePath targetDir name
      match split_audio_vad env.speechDur L with
      | .error _ => ⟨.error .noSpeech, fs, 1, 0⟩
      | .ok segs =>
          if segs.length = 0 then ⟨.error .noSegments, fs, 1, 0⟩
          else
            match env.extractResult with
            | .error m => ⟨.error (.modelError m), fs, 1, 1⟩
            | .ok se => ⟨.ok (se, name), fsWrite fs path se, 1, 1⟩

/-- The HTTP-level outcome of one synthesis request: a streamed success, or
a single `HTTPException(500, str(e))` failure signal (main.py lines 276-278). -/
inductive SynthOut where
  | ok
  | httpError (code : Nat) (detail : String)
deriving DecidableEq, Repr

/-- Python's `str(e)` for each pipeline error: the original message is
carried unmodified up to the HTTP layer. -/
def describeErr : PErr → String
  | .decodeError m => m
  | .noSpeech => "input audio is too short"
  | .noSegments => "No audio segments found!"
  | .modelError m => m

/-- Result of a `synthesize_speech` run: the HTTP response, the final file
system, and how many times `get_se` was invoked. -/
structure SynthResult where
  response : SynthOut
  fs : FS
  getSeCalls : Nat
deriving DecidableEq, Repr

/-- Embedding of the body of `synthesize_speech` (main.py lines 171-278)
from embedding extraction on: `get_se` is invoked exactly once (lines
190-198); on success the base speech file is generated (lines 206-221,
modelled as creating the base file only when `tts_to_file` succeeds), the
voice is converted (lines 223-243) with a `finally` block that deletes the
intermediate base file whether conversion succeeds or raises, and any
exception is surfaced as a single `HTTPException(500, str(e))` with no
retry (lines 276-278). -/
def synthesize_speech (env : Env) (stem version targetDir : String) (L : ℚ) (fs : FS) :
    SynthResult :=
  let r := get_se env stem version targetDir L fs
  match r.result with
  | .error e => ⟨.httpError 500 (describeErr e), r.fs, 1⟩
  | .ok _ =>
      match env.ttsResult with
      | .error m => ⟨.httpError 500 m, r.fs, 1⟩
      | .ok _ =>
          let fs1 : FS := { r.fs with baseFile := true }
          match env.convResult with
          | .error m => ⟨.httpError 500 m, { fs1 with baseFile := false }, 1⟩
          | .ok _ => ⟨.ok, { fs1 with baseFile := false, finalFile := true }, 1⟩

/-! ## Concurrent callers of `get_se`

Two requests for the same previously-uncached reference audio run `get_se`
concurrently through `asyncio.to_thread` (main.py lines 190-198).  Neither
`synthesize_speech` nor `get_se` acquires any lock, and `get_se` never
consults the cache path, so each caller's execution is simply: enter the
expensive compute (segmentation, line 208), leave it (extraction finished
and artifact written, line 222).  A caller is modelled by a program counter
(0 = not started, 1 = inside the compute, 2 = finished); a schedule is the
interleaving choice at each step. -/

/-- The state of two concurrent `get_se` callers: their program counters,
the total number of compute runs started, and the largest number of callers
that were ever inside the compute at the same time. -/
structure ConcState where
  pcA : Nat
  pcB : Nat
  runs : Nat
  maxSimul : Nat
deriving DecidableEq, Repr

/-- Number of callers currently inside the expensive compute. -/
def simulOf (pcA pcB : Nat) : Nat :=
  (if pcA = 1 then 1 else 0) + (if pcB = 1 then 1 else 0)

/-- One scheduler step: the chosen caller advances.  Entering the compute
(0 to 1) counts a compute run; no step ever blocks on the other caller,
because the source has no per-key lock. -/
def concStep (s : ConcState) (who : Bool) : ConcState :=
  let pc := if who then s.pcA else s.pcB
  let pc2 := if pc = 0 then 1 else if pc = 1 then 2 else pc
  let runs2 := if pc = 0 then s.runs + 1 else s.runs
  let pcA2 := if who then pc2 else s.pcA
  let pcB2 := if who then s.pcB else pc2
  ⟨pcA2, pcB2, runs2, max s.maxSimul (simulOf pcA2 pcB2)⟩

/-- Run a schedule from the initial state (no caller started). -/
def runSched (sched : List Bool) : ConcState := sched.foldl concStep ⟨0, 0, 0, 0⟩

/-! ## Atomic artifact persistence (spec sections 4.3 and 7)

Modelled from the spec: the artifact write itself happens inside
`ToneColorConverter.extract_se` (module `api`), whose code is not among the
available repository sources; the spec prescribes "persist it atomically
(write to a temp path then rename, to avoid partial-write corruption under
concurrent access)".  A persistence run therefore writes the artifact bytes
chunk by chunk into a temporary file and finally renames the temporary file
onto the final path in one atomic step. -/

/-- Modelled from the spec: one step of the persistence routine. -/
inductive PersistStep where
  | writeChunk (b : Nat)
  | renameTmp
deriving DecidableEq, Repr

/-- Modelled from the spec: the storage state visible to concurrent readers
of the artifact path, plus the private temp file. -/
structure PFS where
  tmp : List Nat
  finalF : Option (List Nat)
deriving DecidableEq, Repr

/-- Modelled from the spec: the step sequence that persists `art`. -/
def persistSteps (art : List Nat) : List PersistStep :=
  art.map PersistStep.writeChunk ++ [PersistStep.renameTmp]

/-- Modelled from the spec: effect of one persistence step. -/
def applyPersist (s : PFS) : PersistStep → PFS
  | .writeChunk b => ⟨s.tmp ++ [b], s.finalF⟩
  | .renameTmp => ⟨[], some s.tmp⟩

/-- Modelled from the spec: run a prefix of the persistence routine. -/
def runPersist (s : PFS) (steps : List PersistStep) : PFS := steps.foldl applyPersist s

/-! ## Transcription-based segmentation (`split_audio_whisper`, lines 25-93)

The loop keeps for each transcribed span a millisecond slice
`audio[int(start_time*1000) : min(max_len, int(end_time*1000) + 80)]`
(line 73), saves it when `audio_seg.duration_seconds > 1.5 and
audio_seg.duration_seconds < 20. and len(text) >= 2 and len(text) < 200`
(lines 79-81), and resets the start time for the next span to
`max(0, segments[k+1].start - 0.08)` (line 90).  The per-span confidence
(lines 65-68) is computed but never used by the filter, so it is omitted. -/

/-- A transcribed span as produced by the Whisper model: start and end times
in seconds (`w.start`, `w.end`) and the transcript text (`w.text`). -/
structure WSpan where
  start : ℚ
  stop : ℚ
  text : String
deriving DecidableEq, Inhabited, Repr

/-- Python `int()` on a real value: truncation toward zero. -/
def pyInt (q : ℚ) : ℤ := if 0 ≤ q then Int.floor q else Int.ceil q

/-- Python `text.replace('...', '')`: remove the non-overlapping occurrences
of three consecutive dots, scanning left to right. -/
def removeEllipsis : List Char → List Char
  | '.' :: '.' :: '.' :: rest => removeEllipsis rest
  | c :: rest => c :: removeEllipsis rest
  | [] => []

/-- The cleaned transcript text of a span (line 70). -/
def cleanText (w : WSpan) : String := String.mk (removeEllipsis w.text.toList)

/-- A segment saved by `split_audio_whisper`: its index `s_ind`, the
millisecond bounds of the exported audio slice, and the cleaned text. -/
structure SavedSeg where
  idx : Nat
  startMs : ℤ
  endMs : ℤ
  text : String
deriving DecidableEq, Repr

/-- Millisecond slice bounds of span `w` given its effective start time `st`
(line 73): `audio[int(start_time*1000) : min(max_len, int(end_time*1000)+80)]`,
where `maxLen` is `len(audio)` in milliseconds. -/
def spanSlice (maxLen : ℤ) (st : ℚ) (w : WSpan) : ℤ × ℤ :=
  (pyInt (st * 1000), min maxLen (pyInt (w.stop * 1000) + 80))

/-- Duration in seconds of a pydub millisecond slice (empty when the bounds
are reversed). -/
def sliceDur (p : ℤ × ℤ) : ℚ := ((max 0 (p.2 - p.1) : ℤ) : ℚ) / 1000

/-- The save filter of lines 79-81: trimmed duration strictly between 1.5s
and 20s, cleaned text length at least 2 and strictly below 200. -/
def saveCond (maxLen : ℤ) (st : ℚ) (w : WSpan) : Prop :=
  3 / 2 < sliceDur (spanSlice maxLen st w) ∧ sliceDur (spanSlice maxLen st w) < 20 ∧
  2 ≤ (cleanText w).length ∧ (cleanText w).length < 200

instance (maxLen : ℤ) (st : ℚ) (w : WSpan) : Decidable (saveCond maxLen st w) := by
  unfold saveCond
  infer_instance

/-- The segment saved for span `w` at index `k` with effective start `st`. -/
def mkSeg (maxLen : ℤ) (k : Nat) (st : ℚ) (w : WSpan) : SavedSeg :=
  ⟨k, (spanSlice maxLen st w).1, (spanSlice maxLen st w).2, cleanText w⟩

/-- The start time used for the following span (line 90):
`max(0, segments[k+1].start - 0.08)`; unchanged when there is no next span. -/
def nextStartOf (st : ℚ) : List WSpan → ℚ
  | [] => st
  | w2 :: _ => max 0 (w2.start - 2 / 25)

/-- The loop of `split_audio_whisper` (lines 57-92): `k` is the running
segment index `s_ind` and `st` the current effective start time. -/
def splitAux (maxLen : ℤ) : Nat → ℚ → List WSpan → List SavedSeg
  | _, _, [] => []
  | k, st, w :: rest =>
      (if saveCond maxLen st w then [mkSeg maxLen k st w] else [])
        ++ splitAux maxLen (k + 1) (nextStartOf st rest) rest

/-- Embedding of `split_audio_whisper` (se_extractor.py lines 25-93),
returning the saved segments; the first span's start is clamped at 0
(line 60). -/
def split_audio_whisper (spans : List WSpan) (maxLen : ℤ) : List SavedSeg :=
  match spans with
  | [] => []
  | w :: _ => splitAux maxLen 0 (max 0 w.start) spans

/-- The effective start time the loop uses for span `j` of the whole input:
the clamped transcribed start for the first span, and the span's own
transcribed start minus the fixed 0.08s lookback (clamped at 0) for every
later span. -/
def effStart (spans : List WSpan) (j : Nat) : ℚ :=
  if j = 0 then max 0 ((spans.getD 0 default).start)
  else max 0 ((spans.getD j default).start - 2 / 25)

/-- Effective start for span `j` of the suffix `l` when the loop enters the
suffix with current start time `st`. -/
def effStartAux (st : ℚ) (l : List WSpan) (j : Nat) : ℚ :=
  if j = 0 then st else max 0 ((l.getD j default).start - 2 / 25)

/-- `get_se` (se_extractor.py lines 213-217) globs the produced `wavs/`
folder and raises `NotImplementedError('No audio segments found!')` when no
segment survived (the spec's `NoSpeechError`): an empty corpus is an error,
not an empty success. -/
def whisperCorpusCheck (spans : List WSpan) (maxLen : ℤ) : Except String (List SavedSeg) :=
  let segs := split_audio_whisper spans maxLen
  if segs.isEmpty then .error "No audio segments found!" else .ok segs

/-! ## Data model for the ContentHasher claims -/

/-- A reference audio input: its source path, its container format tag, and
the decoded mono sample byte sequence (`librosa.load(path, sr=None,
mono=True)` followed by `array.tobytes()`, se_extractor.py lines 177-179). -/
structure ReferenceAudio where
  path : String
  container : String
  samples : List Nat
deriving DecidableEq, Repr

/-- The decoded sample bytes of a reference audio: `librosa` decodes the
container to a mono sample array, so inputs that are byte-identical in their
decoded samples yield the same byte sequence here, whatever their container
format or filename. -/
def decodedSamples (a : ReferenceAudio) : List Nat := a.samples

/-- The AudioIdentity computed by the ContentHasher: `hash_numpy_array` over
the decoded sample content; the path and container strings play no role. -/
def contentHash (a : ReferenceAudio) : String := hash_numpy_array (decodedSamples a)

/-! ## Claim theorems -/

/-- A concrete request environment: decodable audio with sample bytes
[0, 0, 0, 0], 18 seconds of detected speech, a successful extraction
producing artifact bytes [7, 7], and successful TTS and conversion. -/
def envOk : Env := ⟨.ok [0, 0, 0, 0], 18, .ok [7, 7], .ok (), .ok ()⟩

/-- The empty initial file system. -/
def fsEmpty : FS := ⟨[], false, false⟩

/-- A concrete environment whose reference audio cannot be decoded. -/
def envBad : Env := ⟨.error "bad audio", 0, .ok [], .ok (), .ok ()⟩

/-- A concrete environment whose voice-conversion step fails. -/
def envConvFail : Env := ⟨.ok [0, 0, 0, 0], 18, .ok [7, 7], .ok (), .error "conversion failed"⟩

theorem vadSegsAux_length (T I : ℚ) : ∀ (n : Nat) (s : ℚ), (vadSegsAux T I n s).length = n := by
  intro n
  induction n with
  | zero => intro s; rfl
  | succ m ih => intro s; simp [vadSegsAux, ih]

theorem vadSegsAux_head (T I : ℚ) (n : Nat) (s : ℚ) :
    (vadSegsAux T I (n + 1) s).head?.map Prod.fst = some s := by
  simp [vadSegsAux]

theorem vadSegsAux_last (T I : ℚ) :
    ∀ (n : Nat) (s : ℚ), ((vadSegsAux T I (n + 1) s).getLast?).map Prod.snd = some T := by
  intro n
  induction n with
  | zero => intro s; simp [vadSegsAux]
  | succ m ih =>
      intro s
      rw [show vadSegsAux T I (m + 1 + 1) s
            = (s, min (s + I) T) :: vadSegsAux T I (m + 1) (min (s + I) T) by
        simp [vadSegsAux]]
      rcases hrec : vadSegsAux T I (m + 1) (min (s + I) T) with _ | ⟨b, rest⟩
      · have := vadSegsAux_length T I (m + 1) (min (s + I) T)
        rw [hrec] at this
        simp at this
      · rw [List.getLast?_cons_cons]
        rw [← hrec]
        exact ih (min (s + I) T)

theorem vadSegsAux_contiguous (T I : ℚ) :
    ∀ (n : Nat) (s : ℚ), Contiguous (vadSegsAux T I n s) := by
  intro n
  induction n with
  | zero => intro s; trivial
  | succ m ih =>
      intro s
      match m, ih with
      | 0, _ => simp [vadSegsAux, Contiguous]
      | m' + 1, ih =>
          have hstep : vadSegsAux T I (m' + 1 + 1) s
              = (s, min (s + I) T) :: vadSegsAux T I (m' + 1) (min (s + I) T) := by
            simp [vadSegsAux]
          rw [hstep]
          have hhead : (vadSegsAux T I (m' + 1) (min (s + I) T)).head?.map Prod.fst
              = some (min (s + I) T) := vadSegsAux_head T I m' (min (s + I) T)
          rcases hrec : vadSegsAux T I (m' + 1) (min (s + I) T) with _ | ⟨b, rest⟩
          · rw [hrec] at hhead; simp at hhead
          · rw [hrec] at hhead
            simp at hhead
            constructor
            · exact hhead.symm
            · have := ih (min (s + I) T)
              rw [hrec] at this
              exact this

theorem vadSegsAux_bounds (T I : ℚ) (hI : 0 ≤ I) :
    ∀ (n : Nat) (s : ℚ), s ≤ T → ∀ p ∈ vadSegsAux T I n s, p.1 ≤ p.2 := by
  intro n
  induction n with
  | zero => intro s _ p hp; simp [vadSegsAux] at hp
  | succ m ih =>
      intro s hs p hp
      have hstep : vadSegsAux T I (m + 1) s
          = (s, if m = 0 then T else min (s + I) T)
            :: vadSegsAux T I m (if m = 0 then T else min (s + I) T) := rfl
      rw [hstep, List.mem_cons] at hp
      rcases hp with hp | hp
      · subst hp
        by_cases hm : m = 0
        · simpa [hm] using hs
        · simp only [hm, if_false]
          exact le_min (by linarith) hs
      · have hle : (if m = 0 then T else min (s + I) T) ≤ T := by
          by_cases hm : m = 0 <;> simp [hm, min_le_right]
        exact ih (if m = 0 then T else min (s + I) T) hle p hp

theorem concStep_inv (sched : List Bool) :
    ∀ s : ConcState,
      s.runs = (if 1 ≤ s.pcA then 1 else 0) + (if 1 ≤ s.pcB then 1 else 0) →
      (sched.foldl concStep s).runs
        = (if 1 ≤ (sched.foldl concStep s).pcA then 1 else 0)
          + (if 1 ≤ (sched.foldl concStep s).pcB then 1 else 0) := by
  induction sched with
  | nil => intro s h; exact h
  | cons who rest ih =>
      intro s h
      apply ih
      rcases who with _ | _ <;>
        · simp only [concStep]
          split_ifs at h ⊢ <;> omega

theorem runPersist_chunks (l : List Nat) :
    ∀ s : PFS, runPersist s (l.map PersistStep.writeChunk) = ⟨s.tmp ++ l, s.finalF⟩ := by
  induction l with
  | nil => intro s; simp [runPersist]
  | cons b rest ih =>
      intro s
      simp only [List.map_cons, runPersist, List.foldl_cons]
      have := ih ⟨s.tmp ++ [b], s.finalF⟩
      simp only [runPersist] at this
      rw [show applyPersist s (PersistStep.writeChunk b) = ⟨s.tmp ++ [b], s.finalF⟩ from rfl,
          this]
      simp

theorem fsWrite_idem (fs : FS) (p : String) (v : List Nat) :
    fsWrite (fsWrite fs p v) p v = fsWrite fs p v := by
  unfold fsWrite
  simp [List.filter_filter]

theorem replaceSlash_length (l : List Char) :
    (replaceSlash l).length = l.length + l.count '/' := by
  induction l with
  | nil => rfl
  | cons c rest ih =>
      by_cases hc : c = '/'
      · subst hc
        simp [replaceSlash, ih, List.count_cons]
        omega
      · simp [replaceSlash, hc, ih, List.count_cons]
        omega

theorem slash_not_mem_replaceSlash (l : List Char) : '/' ∉ replaceSlash l := by
  induction l with
  | nil => simp [replaceSlash]
  | cons c rest ih =>
      by_cases hc : c = '/'
      · subst hc
        simp only [replaceSlash, if_pos rfl]
        intro hmem
        rcases List.mem_cons.mp hmem with h | hmem2
        · exact absurd h (by decide)
        · rcases List.mem_cons.mp hmem2 with h | h
          · exact absurd h (by decide)
          · exact ih h
      · simp only [replaceSlash, if_neg hc]
        intro hmem
        rcases List.mem_cons.mp hmem with h | h
        · exact hc h.symm
        · exact ih h

theorem digestBytes_length (s : Hash8) : (digestBytes s).length = 32 := by
  simp [digestBytes, word4]

theorem sha256_length (msg : List Nat) : (sha256 msg).length = 32 :=
  digestBytes_length _

theorem b64Groups_length (l : List Nat) : (b64Groups l).length = 4 * ((l.length + 2) / 3) :=
  match l with
  | [] => rfl
  | [_] => by simp [b64Groups]
  | [_, _] => by simp [b64Groups]
  | b1 :: b2 :: b3 :: rest => by
      have ih := b64Groups_length rest
      simp only [b64Groups, List.length_cons, ih]
      omega
termination_by l.length

theorem b64encode_sha256_length (msg : List Nat) : (b64encode (sha256 msg)).length = 44 := by
  rw [b64encode, b64Groups_length, sha256_length]

theorem effStartAux_shift (st : ℚ) (w : WSpan) (rest : List WSpan) (j : Nat)
    (hj : j < rest.length) :
    effStartAux (nextStartOf st rest) rest j = effStartAux st (w :: rest) (j + 1) := by
  cases rest with
  | nil => simp at hj
  | cons w2 rest2 =>
      cases j with
      | zero => simp [effStartAux, nextStartOf]
      | succ j2 => simp [effStartAux, nextStartOf]

theorem mem_splitAux (maxLen : ℤ) :
    ∀ (l : List WSpan) (k0 : Nat) (st : ℚ) (s : SavedSeg),
      s ∈ splitAux maxLen k0 st l ↔
        ∃ j, j < l.length ∧ saveCond maxLen (effStartAux st l j) (l.getD j default) ∧
          s = mkSeg maxLen (k0 + j) (effStartAux st l j) (l.getD j default) := by
  intro l
  induction l with
  | nil => intro k0 st s; simp [splitAux]
  | cons w rest ih =>
      intro k0 st s
      rw [show splitAux maxLen k0 st (w :: rest)
            = (if saveCond maxLen st w then [mkSeg maxLen k0 st w] else [])
              ++ splitAux maxLen (k0 + 1) (nextStartOf st rest) rest from rfl,
          List.mem_append, ih (k0 + 1) (nextStartOf st rest)]
      constructor
      · rintro (hs | ⟨j, hj, hsave, hseq⟩)
        · by_cases hc : saveCond maxLen st w
          · simp only [hc, if_true, List.mem_singleton] at hs
            refine ⟨0, by simp, ?_, ?_⟩
            · simpa [effStartAux] using hc
            · simpa [effStartAux] using hs
          · simp [hc] at hs
        · refine ⟨j + 1, by simpa using Nat.succ_lt_succ hj, ?_, ?_⟩
          · rw [← effStartAux_shift st w rest j hj]
            simpa [List.getD_cons_succ] using hsave
          · rw [← effStartAux_shift st w rest j hj]
            have harith : k0 + 1 + j = k0 + (j + 1) := by omega
            rw [harith] at hseq
            simpa [List.getD_cons_succ] using hseq
      · rintro ⟨j, hj, hsave, hseq⟩
        cases j with
        | zero =>
            left
            have h1 : effStartAux st (w :: rest) 0 = st := by simp [effStartAux]
            rw [h1] at hsave hseq
            simp only [List.getD_cons_zero] at hsave hseq
            simp only [Nat.add_zero] at hseq
            simp [hsave, hseq]
        | succ j2 =>
            right
            have hj2 : j2 < rest.length := by
              simp only [List.length_cons] at hj
              omega
            refine ⟨j2, hj2, ?_, ?_⟩
            · rw [effStartAux_shift st w rest j2 hj2]
              simpa [List.getD_cons_succ] using hsave
            · rw [effStartAux_shift st w rest j2 hj2]
              have harith : k0 + 1 + j2 = k0 + (j2 + 1) := by omega
              rw [harith]
              simpa [List.getD_cons_succ] using hseq

theorem effStartAux_top (w : WSpan) (rest : List WSpan) (j : Nat) :
    effStartAux (max 0 w.start) (w :: rest) j = effStart (w :: rest) j := by
  cases j with
  | zero => simp [effStartAux, effStart]
  | succ j2 => simp [effStartAux, effStart]

theorem mem_split_audio_whisper (spans : List WSpan) (maxLen : ℤ) (s : SavedSeg) :
    s ∈ split_audio_whisper spans maxLen ↔
      ∃ j, j < spans.length ∧ saveCond maxLen (effStart spans j) (spans.getD j default) ∧
        s = mkSeg maxLen j (effStart spans j) (spans.getD j default) := by
  cases spans with
  | nil => simp [split_audio_whisper]
  | cons w rest =>
      rw [show split_audio_whisper (w :: rest) maxLen
            = splitAux maxLen 0 (max 0 w.start) (w :: rest) from rfl,
          mem_splitAux]
      apply exists_congr
      intro j
      rw [effStartAux_top, Nat.zero_add]

theorem vadSegsAux_sum (T I : ℚ) :
    ∀ (n : Nat) (s : ℚ), ((vadSegsAux T I (n + 1) s).map (fun p => p.2 - p.1)).sum = T - s := by
  intro n
  induction n with
  | zero => intro s; simp [vadSegsAux]
  | succ m ih =>
      intro s
      rw [show vadSegsAux T I (m + 1 + 1) s
            = (s, min (s + I) T) :: vadSegsAux T I (m + 1) (min (s + I) T) by
        simp [vadSegsAux]]
      simp only [List.map_cons, List.sum_cons, ih (min (s + I) T)]
      ring

theorem vadSegsAux_head_ne (T I : ℚ) (n : Nat) (hn : n ≠ 0) (s : ℚ) :
    (vadSegsAux T I n s).head?.map Prod.fst = some s := by
  obtain ⟨m, rfl⟩ := Nat.exists_eq_succ_of_ne_zero hn
  exact vadSegsAux_head T I m s

theorem vadSegsAux_last_ne (T I : ℚ) (n : Nat) (hn : n ≠ 0) (s : ℚ) :
    ((vadSegsAux T I n s).getLast?).map Prod.snd = some T := by
  obtain ⟨m, rfl⟩ := Nat.exists_eq_succ_of_ne_zero hn
  exact vadSegsAux_last T I m s

theorem vadSegsAux_sum_ne (T I : ℚ) (n : Nat) (hn : n ≠ 0) (s : ℚ) :
    ((vadSegsAux T I n s).map (fun p => p.2 - p.1)).sum = T - s := by
  obtain ⟨m, rfl⟩ := Nat.exists_eq_succ_of_ne_zero hn
  exact vadSegsAux_sum T I m s

/-- C6: for all reference audio inputs that are byte-identical in their
decoded mono sample sequence but differ in container format or filename,
`hash_numpy_array` (the ContentHasher) returns the same AudioIdentity: the
identifier is a deterministic (pure) function of the decoded sample bytes
alone, hence reproducible across runs. -/
theorem C6_content_hash (a b : ReferenceAudio) (h : decodedSamples a = decodedSamples b) :
    contentHash a = contentHash b := by
  unfold contentHash
  rw [h]

/-- Witness for C6 at concrete inputs: the same decoded samples behind an
mp3 path and a differently named wav path hash to the same identity. -/
theorem C6_content_hash_witness :
    decodedSamples ⟨"resources/demo_speaker0.mp3", "mp3", [0, 0, 0, 0]⟩
      = decodedSamples ⟨"other/copy.wav", "wav", [0, 0, 0, 0]⟩ ∧
    contentHash ⟨"resources/demo_speaker0.mp3", "mp3", [0, 0, 0, 0]⟩
      = contentHash ⟨"other/copy.wav", "wav", [0, 0, 0, 0]⟩ :=
  ⟨rfl, C6_content_hash _ _ rfl⟩

/-- C7 as stated is false: the identifier is not fixed-length.  Python's
`replace('/', '_^')` turns each `/` among the first 16 base64 characters
into the two characters `_^`: on the decoded sample bytes `[5, 0, 0, 0]`
the base64 digest prefix is `JZS2qS6/scMxLet9`, so the identifier has 17
characters, while on `[0, 0, 0, 0]` it has 16. -/
theorem C7_counterexample :
    (hash_numpy_array [5, 0, 0, 0]).length = 17 ∧
    (hash_numpy_array [0, 0, 0, 0]).length = 16 ∧
    hash_numpy_array [5, 0, 0, 0] = "JZS2qS6_^scMxLet9" :=
  ⟨by decide, by decide, by decide⟩

/-- C7 amended: the identifier equals the first 16 characters of the base64
encoding of the SHA-256 digest of the raw sample bytes with each `/`
replaced by the two characters `_^`; it is filesystem-safe (it never
contains the path separator `/`) and its length is 16 plus the number of
`/` characters among those first 16 base64 characters — fixed only when no
`/` occurs there.  (The base64 digest itself always has 44 characters, so
the prefix taken really has 16.) -/
theorem C7_identifier_shape (sampleBytes : List Nat) :
    hash_numpy_array sampleBytes
      = String.mk (replaceSlash ((b64encode (sha256 sampleBytes)).take 16)) ∧
    '/' ∉ (hash_numpy_array sampleBytes).toList ∧
    (hash_numpy_array sampleBytes).length
      = 16 + ((b64encode (sha256 sampleBytes)).take 16).count '/' ∧
    (b64encode (sha256 sampleBytes)).length = 44 := by
  refine ⟨rfl, ?_, ?_, b64encode_sha256_length _⟩
  · simpa [hash_numpy_array] using
      slash_not_mem_replaceSlash ((b64encode (sha256 sampleBytes)).take 16)
  · have h1 : (hash_numpy_array sampleBytes).length
        = (replaceSlash ((b64encode (sha256 sampleBytes)).take 16)).length := rfl
    have h2 : ((b64encode (sha256 sampleBytes)).take 16).length = 16 := by
      rw [List.length_take, b64encode_sha256_length]
      rfl
    rw [h1, replaceSlash_length, h2]

/-- C3: when `split_audio_vad` succeeds on a concatenated speech track of
duration `T ≥ 0` with target segment length `L > 0`, it produces exactly
`int(np.round(T / L))` sub-segments and at least one (the rounded count
being zero is exactly the failure case of the `assert`); the sub-segments
are contiguous with no gaps and no overlaps, the first starts at 0, the
last ends exactly at `T` (absorbing the rounding remainder), and the
segment durations sum to exactly `T`. -/
theorem C3_vad_segments (T L : ℚ) (segs : List (ℚ × ℚ)) (hT : 0 ≤ T) (_hL : 0 < L)
    (h : split_audio_vad T L = .ok segs) :
    segs.length = (np_round (T / L)).toNat ∧
    1 ≤ (np_round (T / L)).toNat ∧
    Contiguous segs ∧
    (∀ p ∈ segs, p.1 ≤ p.2) ∧
    segs.head?.map Prod.fst = some 0 ∧
    segs.getLast?.map Prod.snd = some T ∧
    (segs.map (fun p => p.2 - p.1)).sum = T := by
  unfold split_audio_vad at h
  by_cases h0 : (np_round (T / L)).toNat = 0
  · rw [if_pos h0] at h
    exact absurd h (by simp)
  · rw [if_neg h0] at h
    have hsegs : segs
        = vadSegsAux T (T / ((np_round (T / L)).toNat : ℚ)) ((np_round (T / L)).toNat) 0 := by
      injection h with h
      exact h.symm
    have hNpos : (0 : ℚ) < ((np_round (T / L)).toNat : ℚ) := by
      have : 0 < (np_round (T / L)).toNat := Nat.pos_of_ne_zero h0
      exact_mod_cast this
    have hI : 0 ≤ T / ((np_round (T / L)).toNat : ℚ) := div_nonneg hT (le_of_lt hNpos)
    subst hsegs
    refine ⟨vadSegsAux_length _ _ _ _, Nat.one_le_iff_ne_zero.mpr h0, vadSegsAux_contiguous _ _ _ _,
      vadSegsAux_bounds _ _ hI _ _ hT, vadSegsAux_head_ne _ _ _ h0 _,
      vadSegsAux_last_ne _ _ _ h0 _, ?_⟩
    simpa using vadSegsAux_sum_ne T (T / ((np_round (T / L)).toNat : ℚ)) _ h0 0

/-- Witness for C3: an 18-second speech track with the default 10-second
target gives round(1.8) = 2 segments, [0, 9) and [9, 18), contiguous and
covering the 18 seconds exactly. -/
theorem C3_vad_segments_witness :
    (0 : ℚ) ≤ 18 ∧ (0 : ℚ) < 10 ∧
    split_audio_vad 18 10 = .ok [(0, 9), (9, 18)] ∧
    [((0 : ℚ), (9 : ℚ)), (9, 18)].length = (np_round ((18 : ℚ) / 10)).toNat ∧
    Contiguous [((0 : ℚ), (9 : ℚ)), (9, 18)] ∧
    ([((0 : ℚ), (9 : ℚ)), (9, 18)].map (fun p => p.2 - p.1)).sum = 18 := by
  have happ := C3_vad_segments 18 10 [(0, 9), (9, 18)] (by norm_num) (by norm_num)
    (by with_unfolding_all decide)
  exact ⟨by norm_num, by norm_num, by with_unfolding_all decide, happ.1, happ.2.2.1,
    happ.2.2.2.2.2.2⟩

/-- C4: `split_audio_whisper` keeps a transcribed span as a saved segment
exactly when its trimmed duration is strictly greater than 1.5 seconds and
strictly less than 20 seconds and its (cleaned) transcript text length is
at least 2 and strictly less than 200 characters; and when every span of
the clip fails these bounds, zero segments survive and the pipeline raises
the no-audio-segments error (the spec's `NoSpeechError`; the source raises
`NotImplementedError('No audio segments found!')`) rather than returning
an empty corpus as success. -/
theorem C4_whisper_filter (spans : List WSpan) (maxLen : ℤ) :
    (∀ k, (∃ s ∈ split_audio_whisper spans maxLen, s.idx = k) ↔
      (k < spans.length ∧
        3 / 2 < sliceDur (spanSlice maxLen (effStart spans k) (spans.getD k default)) ∧
        sliceDur (spanSlice maxLen (effStart spans k) (spans.getD k default)) < 20 ∧
        2 ≤ (cleanText (spans.getD k default)).length ∧
        (cleanText (spans.getD k default)).length < 200)) ∧
    ((∀ k, k < spans.length → ¬ saveCond maxLen (effStart spans k) (spans.getD k default)) →
      whisperCorpusCheck spans maxLen = .error "No audio segments found!") := by
  constructor
  · intro k
    constructor
    · rintro ⟨s, hs, hidx⟩
      rcases (mem_split_audio_whisper spans maxLen s).mp hs with ⟨j, hj, hsave, hseq⟩
      have hjk : j = k := by
        rw [hseq] at hidx
        exact hidx
      subst hjk
      unfold saveCond at hsave
      exact ⟨hj, hsave.1, hsave.2.1, hsave.2.2.1, hsave.2.2.2⟩
    · rintro ⟨hk, h1, h2, h3, h4⟩
      refine ⟨mkSeg maxLen k (effStart spans k) (spans.getD k default), ?_, rfl⟩
      refine (mem_split_audio_whisper spans maxLen _).mpr ⟨k, hk, ?_, rfl⟩
      unfold saveCond
      exact ⟨h1, h2, h3, h4⟩
  · intro hall
    have hempty : split_audio_whisper spans maxLen = [] := by
      rcases hres : split_audio_whisper spans maxLen with _ | ⟨s, rest⟩
      · rfl
      · exfalso
        have hs : s ∈ split_audio_whisper spans maxLen := by
          rw [hres]
          exact List.mem_cons_self s rest
        rcases (mem_split_audio_whisper spans maxLen s).mp hs with ⟨j, hj, hsave, _⟩
        exact hall j hj hsave
    unfold whisperCorpusCheck
    rw [hempty]
    rfl

/-- Witness for C4 at a concrete clip: a single 1-second span survives
nothing (its trimmed duration 1.08s is below the 1.5s bound), so the
pipeline raises the no-audio-segments error. -/
theorem C4_whisper_filter_witness :
    ¬ saveCond 100000 (effStart [⟨0, 1, "hi"⟩] 0) ([(⟨0, 1, "hi"⟩ : WSpan)].getD 0 default) ∧
    whisperCorpusCheck [⟨0, 1, "hi"⟩] 100000 = .error "No audio segments found!" := by
  refine ⟨by with_unfolding_all decide, (C4_whisper_filter [⟨0, 1, "hi"⟩] 100000).2 ?_⟩
  with_unfolding_all decide

/-- C5 as stated is false: for a span after the first, the source sets the
span's start to the SPAN'S OWN transcribed start minus 0.08s
(`max(0, segments[k+1].start - 0.08)`, line 90), not to the previous span's
end minus 0.08s.  Concretely, with spans [0s, 2s] and [5s, 7s], the second
saved segment starts at 4920ms (5s - 0.08s), while the claim's rule
(previous end 2s minus 0.08s) would give 1920ms. -/
theorem C5_counterexample :
    (split_audio_whisper [⟨0, 2, "hello there."⟩, ⟨5, 7, "okay then."⟩] 100000).map
        SavedSeg.startMs = [0, 4920] ∧
    pyInt ((max 0 ((2 : ℚ) - 2 / 25)) * 1000) = 1920 ∧
    (4920 : ℤ) ≠ 1920 :=
  ⟨by with_unfolding_all decide, by with_unfolding_all decide, by decide⟩

/-- C5 amended: in `split_audio_whisper`, every span after the first starts
at its own transcribed start minus the fixed 0.08-second lookback, clamped
at 0 (not at the previous span's end minus 0.08s), the first span starts at
its transcribed start clamped at 0, and every span's end is extended
forward by 0.08 seconds (80ms), clamped to the clip length. -/
theorem C5_trim_rule (spans : List WSpan) (maxLen : ℤ) (s : SavedSeg)
    (hs : s ∈ split_audio_whisper spans maxLen) :
    s.startMs = pyInt (effStart spans s.idx * 1000) ∧
    s.endMs = min maxLen (pyInt ((spans.getD s.idx default).stop * 1000) + 80) ∧
    (1 ≤ s.idx → effStart spans s.idx
      = max 0 ((spans.getD s.idx default).start - 2 / 25)) ∧
    effStart spans 0 = max 0 ((spans.getD 0 default).start) := by
  rcases (mem_split_audio_whisper spans maxLen s).mp hs with ⟨j, hj, _, hseq⟩
  subst hseq
  refine ⟨rfl, rfl, ?_, ?_⟩
  · intro h1
    have hj0 : j ≠ 0 := by
      intro hc
      rw [show (mkSeg maxLen j (effStart spans j) (spans.getD j default)).idx = j from rfl,
        hc] at h1
      exact absurd h1 (by decide)
    show effStart spans j = max 0 ((spans.getD j default).start - 2 / 25)
    unfold effStart
    rw [if_neg hj0]
  · unfold effStart
    rw [if_pos rfl]

/-- Witness for C5 (amended) at the concrete two-span clip: the second
saved segment starts at 4920ms, which is its own span start 5s minus 0.08s. -/
theorem C5_trim_rule_witness :
    (⟨1, 4920, 7080, "okay then."⟩ : SavedSeg)
      ∈ split_audio_whisper [⟨0, 2, "hello there."⟩, ⟨5, 7, "okay then."⟩] 100000 ∧
    (⟨1, 4920, 7080, "okay then."⟩ : SavedSeg).startMs
      = pyInt (effStart [⟨0, 2, "hello there."⟩, ⟨5, 7, "okay then."⟩]
          (⟨1, 4920, 7080, "okay then."⟩ : SavedSeg).idx * 1000) := by
  have hsave : saveCond 100000
      (effStart [⟨0, 2, "hello there."⟩, ⟨5, 7, "okay then."⟩] 1)
      ([(⟨0, 2, "hello there."⟩ : WSpan), ⟨5, 7, "okay then."⟩].getD 1 default) := by
    with_unfolding_all decide
  have h1 : (spanSlice 100000 (effStart [⟨0, 2, "hello there."⟩, ⟨5, 7, "okay then."⟩] 1)
      ([(⟨0, 2, "hello there."⟩ : WSpan), ⟨5, 7, "okay then."⟩].getD 1 default)).1 = 4920 := by
    with_unfolding_all decide
  have h2 : (spanSlice 100000 (effStart [⟨0, 2, "hello there."⟩, ⟨5, 7, "okay then."⟩] 1)
      ([(⟨0, 2, "hello there."⟩ : WSpan), ⟨5, 7, "okay then."⟩].getD 1 default)).2 = 7080 := by
    with_unfolding_all decide
  have h3 : cleanText ([(⟨0, 2, "hello there."⟩ : WSpan), ⟨5, 7, "okay then."⟩].getD 1 default)
      = "okay then." := by
    with_unfolding_all decide
  have hseg : (⟨1, 4920, 7080, "okay then."⟩ : SavedSeg)
      = mkSeg 100000 1 (effStart [⟨0, 2, "hello there."⟩, ⟨5, 7, "okay then."⟩] 1)
          ([(⟨0, 2, "hello there."⟩ : WSpan), ⟨5, 7, "okay then."⟩].getD 1 default) := by
    rw [mkSeg, h1, h2, h3]
  have hmem : (⟨1, 4920, 7080, "okay then."⟩ : SavedSeg)
      ∈ split_audio_whisper [⟨0, 2, "hello there."⟩, ⟨5, 7, "okay then."⟩] 100000 :=
    (mem_split_audio_whisper _ 100000 _).mpr ⟨1, by norm_num, hsave, hseg⟩
  exact ⟨hmem, (C5_trim_rule _ _ _ hmem).1⟩

/-- C1 as stated is false: `get_se` has no cache-hit branch.  After a first
call has stored the artifact at the deterministic path, a second identical
call still performs one segmentation run and one extraction run — not
zero — because the source never tests whether `se_path` exists. -/
theorem C1_counterexample :
    ((get_se envOk "demo_speaker0" "v2" "processed" 10 fsEmpty).fs.artifacts.lookup
        (sePath "processed" (audioNameOf "demo_speaker0" "v2" [0, 0, 0, 0])) = some [7, 7]) ∧
    (get_se envOk "demo_speaker0" "v2" "processed" 10
        (get_se envOk "demo_speaker0" "v2" "processed" 10 fsEmpty).fs).segmentationRuns = 1 ∧
    (get_se envOk "demo_speaker0" "v2" "processed" 10
        (get_se envOk "demo_speaker0" "v2" "processed" 10 fsEmpty).fs).extractionRuns = 1 ∧
    (1 : Nat) ≠ 0 := by
  have hfirst : get_se envOk "demo_speaker0" "v2" "processed" 10 fsEmpty
      = ⟨.ok ([7, 7], audioNameOf "demo_speaker0" "v2" [0, 0, 0, 0]),
         fsWrite fsEmpty (sePath "processed" (audioNameOf "demo_speaker0" "v2" [0, 0, 0, 0]))
           [7, 7], 1, 1⟩ := by
    with_unfolding_all rfl
  have hsecond : get_se envOk "demo_speaker0" "v2" "processed" 10
      (get_se envOk "demo_speaker0" "v2" "processed" 10 fsEmpty).fs
      = ⟨.ok ([7, 7], audioNameOf "demo_speaker0" "v2" [0, 0, 0, 0]),
         fsWrite (get_se envOk "demo_speaker0" "v2" "processed" 10 fsEmpty).fs
           (sePath "processed" (audioNameOf "demo_speaker0" "v2" [0, 0, 0, 0])) [7, 7], 1, 1⟩ := by
    with_unfolding_all rfl
  refine ⟨?_, ?_, ?_, by decide⟩
  · rw [hfirst]
    simp [fsWrite, fsEmpty, List.lookup]
  · rw [hsecond]
  · rw [hsecond]

/-- C1 amended: processing the same ReferenceAudio twice in sequence
re-runs the full segmentation and extraction (there is no cache-hit
short-circuit), but the pipeline is deterministic: the second call returns
the same result as the first, performs exactly the same amount of
segmentation and extraction work, and leaves the file system exactly as the
first call did — the artifact at the deterministic path is overwritten with
byte-identical content, so the caller receives a byte-identical artifact. -/
theorem C1_recompute_deterministic (env : Env) (stem version targetDir : String) (L : ℚ)
    (fs : FS) :
    (get_se env stem version targetDir L
        (get_se env stem version targetDir L fs).fs).result
      = (get_se env stem version targetDir L fs).result ∧
    (get_se env stem version targetDir L
        (get_se env stem version targetDir L fs).fs).segmentationRuns
      = (get_se env stem version targetDir L fs).segmentationRuns ∧
    (get_se env stem version targetDir L
        (get_se env stem version targetDir L fs).fs).extractionRuns
      = (get_se env stem version targetDir L fs).extractionRuns ∧
    (get_se env stem version targetDir L
        (get_se env stem version targetDir L fs).fs).fs
      = (get_se env stem version targetDir L fs).fs := by
  rcases hdec : env.decoded with m | samples
  · simp [get_se, hdec]
  · rcases hsplit : split_audio_vad env.speechDur L with m | segs
    · simp [get_se, hdec, hsplit]
    · by_cases hlen : segs.length = 0
      · simp [get_se, hdec, hsplit, hlen]
      · rcases hex : env.extractResult with m | se
        · simp [get_se, hdec, hsplit, hlen, hex]
        · simp [get_se, hdec, hsplit, hlen, hex, fsWrite_idem]

/-- C2 as stated is false: there is no per-CacheKey lock anywhere in the
process — `synthesize_speech` dispatches `get_se` straight to a worker
thread and `get_se` takes no lock and never re-checks the cache — so the
schedule "A starts the compute, B starts the compute, A finishes,
B finishes" has both callers inside the expensive compute simultaneously
(maxSimul = 2) and performs two compute runs for the same key, not exactly
one. -/
theorem C2_counterexample :
    (runSched [true, false, true, false]).maxSimul = 2 ∧
    (runSched [true, false, true, false]).runs = 2 ∧ (2 : Nat) ≠ 1 :=
  ⟨by decide, by decide, by decide⟩

/-- C2 amended: concurrent callers for the same CacheKey are neither
serialized nor deduplicated: in every schedule in which both callers
complete, the expensive segmentation+extraction compute runs exactly twice
(once per caller), never once; the second caller never blocks on the first
or re-checks the cache. -/
theorem C2_no_single_flight (sched : List Bool)
    (hA : (runSched sched).pcA = 2) (hB : (runSched sched).pcB = 2) :
    (runSched sched).runs = 2 := by
  have h := concStep_inv sched ⟨0, 0, 0, 0⟩ (by decide)
  have hA2 : (sched.foldl concStep ⟨0, 0, 0, 0⟩).pcA = 2 := hA
  have hB2 : (sched.foldl concStep ⟨0, 0, 0, 0⟩).pcB = 2 := hB
  show (sched.foldl concStep ⟨0, 0, 0, 0⟩).runs = 2
  rw [h, hA2, hB2]
  decide

/-- Witness for C2 (amended) at a concrete complete schedule. -/
theorem C2_no_single_flight_witness :
    (runSched [true, false, true, false]).pcA = 2 ∧
    (runSched [true, false, true, false]).pcB = 2 ∧
    (runSched [true, false, true, false]).runs = 2 :=
  ⟨by decide, by decide, C2_no_single_flight _ (by decide) (by decide)⟩

/-- C8 (persistence modelled from the spec, see `persistSteps`): starting
from an empty temp file, at every intermediate point of a persistence run
the artifact path holds either its previous content or the complete
artifact — a partially-written artifact is never visible to concurrent
readers — and if the run stops (disk write failure) anywhere before the
final atomic rename, the artifact path still holds exactly its previous
content. -/
theorem C8_atomic_persist (art : List Nat) (s0 : PFS) (h : s0.tmp = []) (n : Nat) :
    ((runPersist s0 ((persistSteps art).take n)).finalF = s0.finalF ∨
      (runPersist s0 ((persistSteps art).take n)).finalF = some art) ∧
    (n ≤ art.length → (runPersist s0 ((persistSteps art).take n)).finalF = s0.finalF) := by
  by_cases hn : n ≤ art.length
  · have htake : (persistSteps art).take n = (art.take n).map PersistStep.writeChunk := by
      unfold persistSteps
      rw [List.take_append_of_le_length (by simpa using hn), List.map_take]
    rw [htake, runPersist_chunks]
    exact ⟨Or.inl rfl, fun _ => rfl⟩
  · have htake : (persistSteps art).take n = persistSteps art := by
      apply List.take_of_length_le
      unfold persistSteps
      simp only [List.length_append, List.length_map, List.length_singleton]
      omega
    rw [htake]
    unfold persistSteps runPersist
    rw [List.foldl_append]
    have hrun := runPersist_chunks art s0
    unfold runPersist at hrun
    rw [hrun]
    refine ⟨Or.inr ?_, fun hc => absurd hc hn⟩
    simp [applyPersist, h]

/-- Witness for C8: persisting [1, 2, 3] from an empty temp file and
stopping after 2 of the 4 steps leaves nothing at the artifact path. -/
theorem C8_atomic_persist_witness :
    (⟨[], none⟩ : PFS).tmp = [] ∧ (2 : Nat) ≤ ([1, 2, 3] : List Nat).length ∧
    (runPersist ⟨[], none⟩ ((persistSteps [1, 2, 3]).take 2)).finalF = none :=
  ⟨rfl, by decide, (C8_atomic_persist [1, 2, 3] ⟨[], none⟩ rfl 2).2 (by decide)⟩

theorem get_se_baseFile (env : Env) (stem version targetDir : String) (L : ℚ) (fs : FS) :
    (get_se env stem version targetDir L fs).fs.baseFile = fs.baseFile := by
  rcases hdec : env.decoded with m | samples
  · simp [get_se, hdec]
  · rcases hsplit : split_audio_vad env.speechDur L with m | segs
    · simp [get_se, hdec, hsplit]
    · by_cases hlen : segs.length = 0
      · simp [get_se, hdec, hsplit, hlen]
      · rcases hex : env.extractResult with m | se
        · simp [get_se, hdec, hsplit, hlen, hex]
        · simp [get_se, hdec, hsplit, hlen, hex, fsWrite]

/-- C9: every decode, no-speech or model error raised inside the pipeline
bubbles out of `get_se` unmodified (the `except` blocks log and bare-raise)
and is surfaced to the caller as a single `HTTPException(500, str(e))`
synthesis-failure signal; `get_se` is invoked exactly once per request (no
retry), and on an identify (bad audio) or segment (no usable speech)
failure the file system is untouched — no embedding artifact is written, so
a failed request never poisons the cache. -/
theorem C9_error_propagation (env : Env) (stem version targetDir : String) (L : ℚ) (fs : FS) :
    (∀ m, env.decoded = .error m →
      (get_se env stem version targetDir L fs).result = .error (.decodeError m) ∧
      (get_se env stem version targetDir L fs).fs = fs ∧
      (synthesize_speech env stem version targetDir L fs).response = .httpError 500 m) ∧
    (∀ samples, env.decoded = .ok samples → (np_round (env.speechDur / L)).toNat = 0 →
      (get_se env stem version targetDir L fs).result = .error .noSpeech ∧
      (get_se env stem version targetDir L fs).fs = fs ∧
      (synthesize_speech env stem version targetDir L fs).response
        = .httpError 500 "input audio is too short") ∧
    (∀ samples m, env.decoded = .ok samples → env.extractResult = .error m →
      (np_round (env.speechDur / L)).toNat ≠ 0 →
      (get_se env stem version targetDir L fs).result = .error (.modelError m) ∧
      (get_se env stem version targetDir L fs).fs = fs ∧
      (synthesize_speech env stem version targetDir L fs).response = .httpError 500 m) ∧
    (synthesize_speech env stem version targetDir L fs).getSeCalls = 1 := by
  refine ⟨?_, ?_, ?_, ?_⟩
  · intro m hdec
    have hget : get_se env stem version targetDir L fs = ⟨.error (.decodeError m), fs, 0, 0⟩ := by
      simp [get_se, hdec]
    refine ⟨by rw [hget], by rw [hget], ?_⟩
    simp [synthesize_speech, hget, describeErr]
  · intro samples hdec h0
    have hsplit : split_audio_vad env.speechDur L = .error "input audio is too short" := by
      unfold split_audio_vad
      rw [if_pos h0]
    have hget : get_se env stem version targetDir L fs = ⟨.error .noSpeech, fs, 1, 0⟩ := by
      simp [get_se, hdec, hsplit]
    refine ⟨by rw [hget], by rw [hget], ?_⟩
    simp [synthesize_speech, hget, describeErr]
  · intro samples m hdec hex hN
    have hsplit : split_audio_vad env.speechDur L
        = .ok (vadSegsAux env.speechDur
            (env.speechDur / ((np_round (env.speechDur / L)).toNat : ℚ))
            ((np_round (env.speechDur / L)).toNat) 0) := by
      unfold split_audio_vad
      rw [if_neg hN]
    have hlen : (vadSegsAux env.speechDur
        (env.speechDur / ((np_round (env.speechDur / L)).toNat : ℚ))
        ((np_round (env.speechDur / L)).toNat) 0).length ≠ 0 := by
      rw [vadSegsAux_length]
      exact hN
    have hget : get_se env stem version targetDir L fs = ⟨.error (.modelError m), fs, 1, 1⟩ := by
      simp [get_se, hdec, hsplit, hlen, hex]
    refine ⟨by rw [hget], by rw [hget], ?_⟩
    simp [synthesize_speech, hget, describeErr]
  · rcases hr : (get_se env stem version targetDir L fs).result with e | v
    · simp [synthesize_speech, hr]
    · rcases ht : env.ttsResult with m | u
      · simp [synthesize_speech, hr, ht]
      · rcases hc : env.convResult with m | u
        · simp [synthesize_speech, hr, ht, hc]
        · simp [synthesize_speech, hr, ht, hc]

/-- Witness for C9 at a concrete decode failure: the error message reaches
the HTTP layer unmodified and the file system is untouched. -/
theorem C9_error_propagation_witness :
    envBad.decoded = .error "bad audio" ∧
    (get_se envBad "demo_speaker0" "v2" "processed" 10 fsEmpty).result
      = .error (.decodeError "bad audio") ∧
    (get_se envBad "demo_speaker0" "v2" "processed" 10 fsEmpty).fs = fsEmpty ∧
    (synthesize_speech envBad "demo_speaker0" "v2" "processed" 10 fsEmpty).response
      = .httpError 500 "bad audio" := by
  have h := (C9_error_propagation envBad "demo_speaker0" "v2" "processed" 10 fsEmpty).1
    "bad audio" rfl
  exact ⟨rfl, h.1, h.2.1, h.2.2⟩

/-- C10: for every request starting with no base file on disk, the
intermediate base speech file is gone when the request completes — the
`finally` block of the conversion step deletes it whether the conversion
succeeds or raises — and only on full success is the final converted file
(transiently) retained. -/
theorem C10_base_cleanup (env : Env) (stem version targetDir : String) (L : ℚ) (fs : FS)
    (hbase : fs.baseFile = false) :
    (synthesize_speech env stem version targetDir L fs).fs.baseFile = false ∧
    ((synthesize_speech env stem version targetDir L fs).response = .ok →
      (synthesize_speech env stem version targetDir L fs).fs.finalFile = true) := by
  have hb := get_se_baseFile env stem version targetDir L fs
  rcases hr : (get_se env stem version targetDir L fs).result with e | v
  · constructor
    · simp [synthesize_speech, hr, hb, hbase]
    · intro hok
      simp [synthesize_speech, hr] at hok
  · rcases ht : env.ttsResult with m | u
    · constructor
      · simp [synthesize_speech, hr, ht, hb, hbase]
      · intro hok
        simp [synthesize_speech, hr, ht] at hok
    · rcases hc : env.convResult with m | u
      · constructor
        · simp [synthesize_speech, hr, ht, hc]
        · intro hok
          simp [synthesize_speech, hr, ht, hc] at hok
      · constructor
        · simp [synthesize_speech, hr, ht, hc]
        · intro _
          simp [synthesize_speech, hr, ht, hc]

/-- Witness for C10 at a concrete request whose conversion step raises: the
base file is still deleted. -/
theorem C10_base_cleanup_witness :
    fsEmpty.baseFile = false ∧
    (synthesize_speech envConvFail "demo_speaker0" "v2" "processed" 10 fsEmpty).fs.baseFile
      = false :=
  ⟨rfl, (C10_base_cleanup envConvFail "demo_speaker0" "v2" "processed" 10 fsEmpty rfl).1⟩

